import Mathlib

/-!
Verification development for the dbuddy migration runner
(`src/migration-runner.ts`, class `MigrationRunner`).

The TypeScript source is shallowly embedded: filesystem access becomes an
explicit directory listing (`List String`) plus a content map
(`String → String`), the SQL database becomes an explicit `DbState`, the
outcome of the tracking-table SELECT becomes an `Except` value, and success
of an opaque SQL body is an oracle `sqlOk : String → Bool`.  Machine dates
are abstracted to `Nat` timestamps.  JavaScript string comparison
(`<`, `<=` and `localeCompare` on the digit-only version strings used by the
runner) is modelled by code-point lexicographic order `strLe`/`strLt`.
-/
namespace Dbuddy

set_option maxRecDepth 1000000

/-- `interface Migration` from src/types.ts (the fields the runner uses;
`appliedAt`/`checksum` are optional and never set by `loadMigrationFiles`). -/
structure Migration where
  version : String
  name : String
  upSql : String
  downSql : String
deriving DecidableEq, Repr

/-- `interface MigrationRecord` from src/types.ts: a row of the
`dbuddy_migrations` tracking table.  The `id SERIAL` column is assigned by
the server and never read by the runner, so it is omitted; `applied_at` is
abstracted to a `Nat` timestamp. -/
structure MigrationRecord where
  version : String
  name : String
  applied_at : Nat
  checksum : String
deriving DecidableEq, Repr

/-- The `status` field of `interface MigrationStatus`. -/
inductive MigStatusKind where
  | applied
  | pending
deriving DecidableEq, Repr

/-- `interface MigrationStatus` from src/types.ts. -/
structure MigrationStatus where
  version : String
  name : String
  status : MigStatusKind
  appliedAt : Option Nat
deriving DecidableEq, Repr

/-! ### String ordering

JavaScript `a < b` / `a <= b` compare strings lexicographically by code
unit; `localeCompare`, used by the version sorts, agrees with that order on
the fixed-width digit strings the runner produces. -/
/-- Lexicographic `≤` on character lists by code point. -/
def charListLe : List Char → List Char → Bool
  | [], _ => true
  | _ :: _, [] => false
  | c :: cs, d :: ds =>
    if c.toNat < d.toNat then true
    else if d.toNat < c.toNat then false
    else charListLe cs ds

/-- JavaScript `a <= b` on strings. -/
def strLe (a b : String) : Bool := charListLe a.data b.data

/-- JavaScript `a < b` on strings. -/
def strLt (a b : String) : Bool := !strLe b a

/-! ### Stable sorting

`Array.prototype.sort` is required to be stable, and a stable sort is
uniquely determined by a comparator that is a total preorder (which the
version comparators are), so a stable insertion sort is an exact model.
It is structurally recursive, hence evaluates inside the kernel. -/
/-- Insert before the first element not strictly smaller (stable). -/
def insLe {α : Type} (le : α → α → Bool) (x : α) : List α → List α
  | [] => [x]
  | y :: ys => if le x y then x :: y :: ys else y :: insLe le x ys

/-- Stable insertion sort. -/
def insSort {α : Type} (le : α → α → Bool) : List α → List α
  | [] => []
  | x :: xs => insLe le x (insSort le xs)

/-! ### Filename parsing

`loadMigrationFiles` keeps a file only when it matches the regex

  `/^(\d{14})_(.+)\.(up|down)\.sql$/`

(after a redundant `endsWith('.sql')` pre-check).  `parseMigrationFile`
returns the captured `(version, name, direction)`; `none` means the file is
skipped silently.  JavaScript `.` does not match line terminators, which
`isNameCh` reproduces for the `(.+)` name capture. -/
inductive Direction where
  | up
  | down
deriving DecidableEq, Repr

/-- JavaScript `\d`: the ASCII digits. -/
def isDigitCh (c : Char) : Bool := 48 ≤ c.toNat && c.toNat ≤ 57

/-- JavaScript `.`: any character except the four line terminators. -/
def isNameCh (c : Char) : Bool :=
  !(c.toNat == 10 || c.toNat == 13 || c.toNat == 8232 || c.toNat == 8233)

/-- Parse the `(.+)\.(up|down)\.sql` tail of a migration filename:
a non-empty name followed by exactly one direction suffix. -/
def parseNameDir (cs : List Char) : Option (List Char × Direction) :=
  if 8 ≤ cs.length ∧ cs.drop (cs.length - 7) = ".up.sql".data
      ∧ (cs.take (cs.length - 7)).all isNameCh = true then
    some (cs.take (cs.length - 7), Direction.up)
  else if 10 ≤ cs.length ∧ cs.drop (cs.length - 9) = ".down.sql".data
      ∧ (cs.take (cs.length - 9)).all isNameCh = true then
    some (cs.take (cs.length - 9), Direction.down)
  else none

/-- The full filename grammar `^(\d{14})_(.+)\.(up|down)\.sql$`. -/
def parseMigrationFile (f : String) : Option (String × String × Direction) :=
  if (f.data.take 14).length = 14 ∧ (f.data.take 14).all isDigitCh = true then
    match f.data.drop 14 with
    | c :: tail =>
      if c = '_' then
        match parseNameDir tail with
        | some (nm, d) => some (String.mk (f.data.take 14), String.mk nm, d)
        | none => none
      else none
    | [] => none
  else none

/-- The canonical filename of a `(version, name, direction)` triple. -/
def migFilename (v n : String) (d : Direction) : String :=
  v ++ "_" ++ n ++ (match d with | Direction.up => ".up.sql" | Direction.down => ".down.sql")

/-! ### Grouping files by `(version, name)`

The source builds a `Map` keyed by `` `${version}_${name}` `` whose values
accumulate the up/down contents; JavaScript `Map` preserves insertion
order, modelled by an association list updated in place. -/
/-- A partially assembled migration (`Partial<Migration>` in the source). -/
structure MigGroup where
  version : String
  name : String
  upSql : Option String
  downSql : Option String
deriving DecidableEq, Repr

/-- Store one direction's SQL body in the group. -/
def setDir (p : MigGroup) (d : Direction) (c : String) : MigGroup :=
  match d with
  | Direction.up => { p with upSql := some c }
  | Direction.down => { p with downSql := some c }

/-- `migrationMap.set` semantics: update the entry for `k` in place,
or append a fresh entry at the end. -/
def updateEntry (k : String) (v n : String) (d : Direction) (c : String) :
    List (String × MigGroup) → List (String × MigGroup)
  | [] => [(k, setDir ⟨v, n, none, none⟩ d c)]
  | (k', p) :: rest =>
    if k' = k then (k', setDir p d c) :: rest
    else (k', p) :: updateEntry k v n d c rest

/-- The grouping loop of `loadMigrationFiles`: non-matching files are
skipped, matching files store their content under their `(version, name)`
key.  `content f` is `fs.readFileSync` of file `f`. -/
def buildMap (content : String → String) :
    List String → List (String × MigGroup) → List (String × MigGroup)
  | [], acc => acc
  | f :: rest, acc =>
    match parseMigrationFile f with
    | none => buildMap content rest acc
    | some (v, n, d) =>
      buildMap content rest (updateEntry (v ++ "_" ++ n) v n d (content f) acc)

/-- The completeness check `if (!migration.upSql || !migration.downSql)`:
a group survives only when both bodies are present and truthy (non-empty);
otherwise it is dropped with a warning. -/
def completeOf (g : MigGroup) : Option Migration :=
  match g.upSql, g.downSql with
  | some u, some d => if u = "" ∨ d = "" then none else some ⟨g.version, g.name, u, d⟩
  | _, _ => none

/-- `MigrationRunner.loadMigrationFiles`: group, validate, and sort
ascending by version (`a.version.localeCompare(b.version)` with a stable
sort, which `List.mergeSort` is). -/
def loadMigrationFiles (files : List String) (content : String → String) : List Migration :=
  insSort (fun a b => strLe a.version b.version)
    ((buildMap content files []).filterMap (fun kp => completeOf kp.2))

/-! ### Checksum (`calculateChecksum`)

`crypto.createHash('sha256').update(upSql + downSql).digest('hex')`:
SHA-256 over the UTF-8 bytes of the concatenated SQL bodies, rendered as
lowercase hex.  The hash itself lives in Node's crypto library, so the
standard SHA-256 algorithm (FIPS 180-4) is implemented here over byte
lists; a test-vector lemma below checks it against the published digests. -/
/-- UTF-8 encoding of one scalar value (what Node's `'utf8'` encoding does
to each well-formed character). -/
def utf8Bytes (c : Char) : List Nat :=
  let n := c.toNat
  if n < 128 then [n]
  else if n < 2048 then [192 ||| (n >>> 6), 128 ||| (n &&& 63)]
  else if n < 65536 then
    [224 ||| (n >>> 12), 128 ||| ((n >>> 6) &&& 63), 128 ||| (n &&& 63)]
  else
    [240 ||| (n >>> 18), 128 ||| ((n >>> 12) &&& 63),
     128 ||| ((n >>> 6) &&& 63), 128 ||| (n &&& 63)]

/-- The UTF-8 byte sequence of a string. -/
def strBytes (s : String) : List Nat := s.data.flatMap utf8Bytes

def rotr32 (x n : Nat) : Nat := ((x >>> n) ||| (x <<< (32 - n))) % 4294967296

def add32 (a b : Nat) : Nat := (a + b) % 4294967296

def bSig0 (x : Nat) : Nat := (rotr32 x 2) ^^^ (rotr32 x 13) ^^^ (rotr32 x 22)

def bSig1 (x : Nat) : Nat := (rotr32 x 6) ^^^ (rotr32 x 11) ^^^ (rotr32 x 25)

def sSig0 (x : Nat) : Nat := (rotr32 x 7) ^^^ (rotr32 x 18) ^^^ (x >>> 3)

def sSig1 (x : Nat) : Nat := (rotr32 x 17) ^^^ (rotr32 x 19) ^^^ (x >>> 10)

def chFn (x y z : Nat) : Nat := (x &&& y) ^^^ ((x ^^^ 4294967295) &&& z)

def majFn (x y z : Nat) : Nat := (x &&& y) ^^^ (x &&& z) ^^^ (y &&& z)

/-- The 64 SHA-256 round constants. -/
def shaK : List Nat :=
  [1116352408, 1899447441, 3049323471, 3921009573, 961987163,
   1508970993, 2453635748, 2870763221, 3624381080, 310598401,
   607225278, 1426881987, 1925078388, 2162078206, 2614888103,
   3248222580, 3835390401, 4022224774, 264347078, 604807628,
   770255983, 1249150122, 1555081692, 1996064986, 2554220882,
   2821834349, 2952996808, 3210313671, 3336571891, 3584528711,
   113926993, 338241895, 666307205, 773529912, 1294757372,
   1396182291, 1695183700, 1986661051, 2177026350, 2456956037,
   2730485921, 2820302411, 3259730800, 3345764771, 3516065817,
   3600352804, 4094571909, 275423344, 430227734, 506948616,
   659060556, 883997877, 958139571, 1322822218, 1537002063,
   1747873779, 1955562222, 2024104815, 2227730452, 2361852424,
   2428436474, 2756734187, 3204031479, 3329325298]

/-- A SHA-256 working state / digest: eight 32-bit words. -/
structure Digest8 where
  h0 : Nat
  h1 : Nat
  h2 : Nat
  h3 : Nat
  h4 : Nat
  h5 : Nat
  h6 : Nat
  h7 : Nat
deriving DecidableEq, Repr

def shaInit : Digest8 :=
  ⟨1779033703, 3144134277, 1013904242, 2773480762, 1359893119, 2600822924, 528734635, 1541459225⟩

/-- One compression round. -/
def shaRound (s : Digest8) (wk : Nat × Nat) : Digest8 :=
  let t1 := add32 (add32 (add32 s.h7 (bSig1 s.h4)) (add32 (chFn s.h4 s.h5 s.h6) wk.2)) wk.1
  let t2 := add32 (bSig0 s.h0) (majFn s.h0 s.h1 s.h2)
  ⟨add32 t1 t2, s.h0, s.h1, s.h2, add32 s.h3 t1, s.h4, s.h5, s.h6⟩

/-- Extend the 16-word block to the 64-word message schedule
(`steps` is the number of words still to append, 48 at the top call). -/
def extendW : Nat → List Nat → List Nat
  | 0, w => w
  | steps + 1, w =>
    let i := w.length
    extendW steps
      (w ++ [add32 (add32 (sSig1 (w.getD (i - 2) 0)) (w.getD (i - 7) 0))
                   (add32 (sSig0 (w.getD (i - 15) 0)) (w.getD (i - 16) 0))])

/-- Big-endian 32-bit words from a byte list. -/
def toWords : List Nat → List Nat
  | b0 :: b1 :: b2 :: b3 :: rest => (((b0 * 256 + b1) * 256 + b2) * 256 + b3) :: toWords rest
  | _ => []

/-- Process one 64-byte chunk. -/
def shaChunk (h : Digest8) (chunkBytes : List Nat) : Digest8 :=
  let w := extendW 48 (toWords chunkBytes)
  let s := (w.zip shaK).foldl shaRound h
  ⟨add32 h.h0 s.h0, add32 h.h1 s.h1, add32 h.h2 s.h2, add32 h.h3 s.h3,
   add32 h.h4 s.h4, add32 h.h5 s.h5, add32 h.h6 s.h6, add32 h.h7 s.h7⟩

/-- The big-endian 64-bit length trailer (length in bits). -/
def lenBytes (bits : Nat) : List Nat :=
  (List.range 8).map (fun i => (bits >>> ((7 - i) * 8)) % 256)

/-- FIPS 180-4 padding: `0x80`, zeros to 56 mod 64, then the bit length. -/
def padMessage (msg : List Nat) : List Nat :=
  msg ++ 128 :: List.replicate ((119 - msg.length % 64) % 64) 0 ++ lenBytes (8 * msg.length)

/-- Split into 64-byte chunks (structural recursion on a length fuel so the
definition reduces in the kernel). -/
def chunk64Go : Nat → List Nat → List (List Nat)
  | 0, _ => []
  | fuel + 1, l => if l.isEmpty then [] else l.take 64 :: chunk64Go fuel (l.drop 64)

def chunk64 (l : List Nat) : List (List Nat) := chunk64Go l.length l

def sha256Digest (msg : List Nat) : Digest8 :=
  (chunk64 (padMessage msg)).foldl shaChunk shaInit

/-- Lowercase hex digit. -/
def hexChar (n : Nat) : Char :=
  if n < 10 then Char.ofNat (48 + n) else Char.ofNat (87 + n)

/-- Fixed-width 8-digit hex rendering of a 32-bit word. -/
def toHex8 (n : Nat) : String :=
  String.mk ((List.range 8).map (fun i => hexChar ((n >>> ((7 - i) * 4)) % 16)))

/-- `digest('hex')`: 64 lowercase hex characters. -/
def sha256Hex (msg : List Nat) : String :=
  let d := sha256Digest msg
  toHex8 d.h0 ++ toHex8 d.h1 ++ toHex8 d.h2 ++ toHex8 d.h3 ++
  toHex8 d.h4 ++ toHex8 d.h5 ++ toHex8 d.h6 ++ toHex8 d.h7

/-- SHA-256 hex digest of a string's UTF-8 bytes. -/
def sha256HexOfString (s : String) : String := sha256Hex (strBytes s)

/-- `MigrationRunner.calculateChecksum(upSql, downSql)`:
`createHash('sha256').update(upSql + downSql).digest('hex')`. -/
def calculateChecksum (upSql downSql : String) : String :=
  sha256HexOfString (upSql ++ downSql)

/-! ### The database

`Database.query` / the per-migration `PoolClient` are extern collaborators.
`DbState` is the visible database state: whether `dbuddy_migrations`
exists, its rows, and the log of committed migration SQL bodies (tagged by
version) in execution order.  A transaction either commits all of its
effects or leaves the state untouched (`BEGIN`/`COMMIT`/`ROLLBACK`
semantics of the SQL engine); `sqlOk` is the oracle deciding whether an
opaque migration SQL body executes successfully. -/
/-- Ways the tracking-table SELECT can fail. -/
inductive DbError where
  | missingTable
  | connectionFailed
  | permissionDenied
  | other (msg : String)
deriving DecidableEq, Repr

/-- Errors surfaced by a migration batch: the migration SQL failed, or the
tracking-table INSERT/DELETE failed inside the same transaction. -/
inductive MigError where
  | sqlFailed (version name sql : String)
  | recordFailed (version name : String)
deriving DecidableEq, Repr

/-- Visible state of the target database. -/
structure DbState where
  hasTrackingTable : Bool
  tracking : List MigrationRecord
  sqlLog : List (String × String)
deriving DecidableEq, Repr

/-- Outcome of `SELECT * FROM dbuddy_migrations ORDER BY version` on a
given state. -/
def trackingQuery (st : DbState) : Except DbError (List MigrationRecord) :=
  if st.hasTrackingTable then
    Except.ok (insSort (fun a b => strLe a.version b.version) st.tracking)
  else Except.error DbError.missingTable

/-- `MigrationRunner.initialize()`: `CREATE TABLE IF NOT EXISTS
dbuddy_migrations (...)` — idempotent, keeps existing rows. -/
def initTracking (st : DbState) : DbState := { st with hasTrackingTable := true }

/-- `MigrationRunner.getAppliedMigrations()`: return the SELECT's rows, and
on ANY error return `[]` (the catch block ignores the error entirely). -/
def getAppliedMigrations (queryResult : Except DbError (List MigrationRecord)) :
    List MigrationRecord :=
  match queryResult with
  | Except.ok rows => rows
  | Except.error _ => []

/-! ### getStatus -/
/-- One row of the status report: the `appliedMap` lookup (a JavaScript
`Map` built from the applied list, so the LAST record of a version wins). -/
def statusOf (applied : List MigrationRecord) (m : Migration) : MigrationStatus :=
  match applied.reverse.find? (fun r => r.version == m.version) with
  | some r => ⟨m.version, m.name, MigStatusKind.applied, some r.applied_at⟩
  | none => ⟨m.version, m.name, MigStatusKind.pending, none⟩

/-- `MigrationRunner.getStatus()`, parametrised by the outcome of the
tracking-table SELECT. -/
def getStatus (files : List String) (content : String → String)
    (queryResult : Except DbError (List MigrationRecord)) : List MigrationStatus :=
  (loadMigrationFiles files content).map (statusOf (getAppliedMigrations queryResult))

/-- `getStatus()` against a database state. -/
def getStatusOnDb (files : List String) (content : String → String) (st : DbState) :
    List MigrationStatus :=
  getStatus files content (trackingQuery st)

/-! ### migrateUp -/
/-- JavaScript truthiness of the optional `target` string:
`undefined` and `""` are falsy. -/
def truthyOpt : Option String → Bool
  | none => false
  | some s => s != ""

/-- The record inserted by a successful up-migration
(`INSERT INTO dbuddy_migrations (version, name, checksum)`;
`applied_at` defaults to the server clock `now`). -/
def mkRecord (now : Nat) (m : Migration) : MigrationRecord :=
  ⟨m.version, m.name, now, calculateChecksum m.upSql m.downSql⟩

/-- The pending computation of `migrateUp`: definitions whose version is
not applied, then `if (target) pending.filter(m => m.version <= target)`. -/
def pendingUp (defs : List Migration) (appliedVersions : List String)
    (target : Option String) : List Migration :=
  let pending := defs.filter (fun m => !(appliedVersions.contains m.version))
  if truthyOpt target then pending.filter (fun m => strLe m.version (target.getD ""))
  else pending

/-- One up-migration transaction: `BEGIN`; run `upSql`; `INSERT` the
record (fails when the tracking table is missing, or on its UNIQUE
version constraint); `COMMIT` — or `ROLLBACK` to the entry state and
rethrow. -/
def applyUpTxn (sqlOk : String → Bool) (now : Nat) (m : Migration) (st : DbState) :
    Except MigError DbState :=
  if sqlOk m.upSql then
    let st1 : DbState := { st with sqlLog := st.sqlLog ++ [(m.version, m.upSql)] }
    if st1.hasTrackingTable && st1.tracking.all (fun r => r.version != m.version) then
      Except.ok { st1 with tracking := st1.tracking ++ [mkRecord now m] }
    else Except.error (MigError.recordFailed m.version m.name)
  else Except.error (MigError.sqlFailed m.version m.name m.upSql)

/-- The `for (const migration of pendingMigrations)` loop: in dry-run mode
every iteration only prints; otherwise a failed transaction rolls back,
`throw` aborts the rest, and the error reaches the caller. -/
def runUpList (sqlOk : String → Bool) (now : Nat) (dryRun : Bool) :
    List Migration → DbState → DbState × Option MigError
  | [], st => (st, none)
  | m :: rest, st =>
    if dryRun then runUpList sqlOk now dryRun rest st
    else
      match applyUpTxn sqlOk now m st with
      | Except.ok st' => runUpList sqlOk now dryRun rest st'
      | Except.error e => (st, some e)

/-- `MigrationRunner.migrateUp({target, dryRun})`, parametrised by the
outcome of the tracking-table SELECT.  Returns the final database state
and the propagated error, if any. -/
def migrateUp (sqlOk : String → Bool) (now : Nat) (files : List String)
    (content : String → String) (queryResult : Except DbError (List MigrationRecord))
    (target : Option String) (dryRun : Bool) (st : DbState) : DbState × Option MigError :=
  let fileMigrations := loadMigrationFiles files content
  let appliedVersions := (getAppliedMigrations queryResult).map (fun r => r.version)
  runUpList sqlOk now dryRun (pendingUp fileMigrations appliedVersions target) st

/-- `migrateUp` against a database state (the SELECT runs on `st`). -/
def migrateUpOnDb (sqlOk : String → Bool) (now : Nat) (files : List String)
    (content : String → String) (target : Option String) (dryRun : Bool)
    (st : DbState) : DbState × Option MigError :=
  migrateUp sqlOk now files content (trackingQuery st) target dryRun st

/-! ### migrateDown -/
/-- `fileMigrationMap.get(version)`: a JavaScript `Map` built from the
loaded list keyed by version, so the LAST migration of a version wins. -/
def lastByVersion (defs : List Migration) (v : String) : Option Migration :=
  defs.reverse.find? (fun m => m.version == v)

/-- The rollback selection:
`applied.filter(m => !target || m.version > target)` sorted descending
(`b.version.localeCompare(a.version)`). -/
def selectRollback (applied : List MigrationRecord) (target : Option String) :
    List MigrationRecord :=
  insSort (fun a b => strLe b.version a.version)
    (applied.filter (fun r => !truthyOpt target || strLt (target.getD "") r.version))

/-- One down-migration transaction: `BEGIN`; run `downSql`; `DELETE FROM
dbuddy_migrations WHERE version = $1`; `COMMIT` — or `ROLLBACK` and
rethrow. -/
def applyDownTxn (sqlOk : String → Bool) (m : Migration) (r : MigrationRecord)
    (st : DbState) : Except MigError DbState :=
  if sqlOk m.downSql then
    let st1 : DbState := { st with sqlLog := st.sqlLog ++ [(r.version, m.downSql)] }
    if st1.hasTrackingTable then
      Except.ok { st1 with tracking := st1.tracking.filter (fun t => t.version != r.version) }
    else Except.error (MigError.recordFailed r.version r.name)
  else Except.error (MigError.sqlFailed r.version r.name m.downSql)

/-- The rollback loop: a record with no matching file definition is warned
about and skipped (the batch continues); otherwise dry-run only prints, and
a failed transaction rolls back and aborts the rest. -/
def runDownList (sqlOk : String → Bool) (defs : List Migration) (dryRun : Bool) :
    List MigrationRecord → DbState → DbState × Option MigError
  | [], st => (st, none)
  | r :: rest, st =>
    match lastByVersion defs r.version with
    | none => runDownList sqlOk defs dryRun rest st
    | some m =>
      if dryRun then runDownList sqlOk defs dryRun rest st
      else
        match applyDownTxn sqlOk m r st with
        | Except.ok st' => runDownList sqlOk defs dryRun rest st'
        | Except.error e => (st, some e)

/-- `MigrationRunner.migrateDown({target, dryRun})`, parametrised by the
outcome of the tracking-table SELECT. -/
def migrateDown (sqlOk : String → Bool) (files : List String)
    (content : String → String) (queryResult : Except DbError (List MigrationRecord))
    (target : Option String) (dryRun : Bool) (st : DbState) : DbState × Option MigError :=
  let defs := loadMigrationFiles files content
  let toRollback := selectRollback (getAppliedMigrations queryResult) target
  runDownList sqlOk defs dryRun toRollback st

/-- `migrateDown` against a database state. -/
def migrateDownOnDb (sqlOk : String → Bool) (files : List String)
    (content : String → String) (target : Option String) (dryRun : Bool)
    (st : DbState) : DbState × Option MigError :=
  migrateDown sqlOk files content (trackingQuery st) target dryRun st

/-! ### Shared concrete inputs for witnesses and counterexamples -/
/-- A directory with one complete migration pair. -/
def exFiles : List String :=
  ["20240101120000_add_users.up.sql", "20240101120000_add_users.down.sql"]

def exContent : String → String := fun f =>
  if f = "20240101120000_add_users.up.sql" then "CREATE TABLE users ();"
  else if f = "20240101120000_add_users.down.sql" then "DROP TABLE users;"
  else ""

/-- A database in which `initialize()` has never run. -/
def freshDb : DbState := ⟨false, [], []⟩

/-- Two complete migration pairs (the scenario of the repository's own
multi-migration test). -/
def exFiles2 : List String :=
  ["20240101130000_add_posts.up.sql", "20240101130000_add_posts.down.sql",
   "20240101120000_add_users.up.sql", "20240101120000_add_users.down.sql"]

def exContent2 : String → String := fun f =>
  if f = "20240101120000_add_users.up.sql" then "CREATE TABLE users ();"
  else if f = "20240101120000_add_users.down.sql" then "DROP TABLE users;"
  else if f = "20240101130000_add_posts.up.sql" then "CREATE TABLE posts ();"
  else if f = "20240101130000_add_posts.down.sql" then "DROP TABLE posts;"
  else ""

/-- The sqlOk oracle making the posts up-migration fail. -/
def upFailOracle : String → Bool := fun s => s != "CREATE TABLE posts ();"

/-- The users migration as loaded from `exFiles2`. -/
def usersMig : Migration :=
  ⟨"20240101120000", "add_users", "CREATE TABLE users ();", "DROP TABLE users;"⟩

/-- State after the users migration committed and the posts migration
failed. -/
def upErrSt : DbState :=
  ⟨true, [mkRecord 0 usersMig], [("20240101120000", "CREATE TABLE users ();")]⟩

def ruRec : MigrationRecord := ⟨"20240101120000", "add_users", 0, ""⟩

def rpRec : MigrationRecord := ⟨"20240101130000", "add_posts", 0, ""⟩

/-- The sqlOk oracle making the users down-migration fail. -/
def downFailOracle : String → Bool := fun s => s != "DROP TABLE users;"

def downStartSt : DbState := ⟨true, [ruRec, rpRec], []⟩

/-- State after posts was rolled back and users failed. -/
def downErrSt : DbState := ⟨true, [ruRec], [("20240101130000", "DROP TABLE posts;")]⟩

/-! ### Soundness of the file store -/
/-- The direction suffix as characters. -/
def dirSuffix (d : Direction) : String :=
  match d with
  | Direction.up => ".up.sql"
  | Direction.down => ".down.sql"

/-- Invariant of the grouping map: the key is the `(version, name)` key of
the group, the version has the regex's fixed width, and each stored SQL
body is the content of a file in the directory that parses to this group
and direction. -/
def entryOk (files : List String) (content : String → String)
    (k : String) (p : MigGroup) : Prop :=
  k = p.version ++ "_" ++ p.name ∧
  p.version.length = 14 ∧
  (∀ u, p.upSql = some u →
    ∃ f ∈ files, parseMigrationFile f = some (p.version, p.name, Direction.up)
      ∧ u = content f) ∧
  (∀ w, p.downSql = some w →
    ∃ f ∈ files, parseMigrationFile f = some (p.version, p.name, Direction.down)
      ∧ w = content f)

/-- The complete posts migration surviving next to the dropped
empty-up-body users pair. -/
def postsMig : Migration :=
  ⟨"20240101130000", "add_posts", "CREATE TABLE posts ();", "DROP TABLE posts;"⟩

/-- Contents where the users up file exists but is empty. -/
def exContentEmptyUp : String → String := fun f =>
  if f = "20240101120000_add_users.up.sql" then ""
  else if f = "20240101120000_add_users.down.sql" then "DROP TABLE users;"
  else if f = "20240101130000_add_posts.up.sql" then "CREATE TABLE posts ();"
  else if f = "20240101130000_add_posts.down.sql" then "DROP TABLE posts;"
  else "x"

/-! ### C3 and C4: target selection uses JavaScript truthiness -/
/-- The rollback selection exactly as the claim states it: version strictly
greater than `target` whenever `target` is supplied. -/
def specRollbackStated (applied : List MigrationRecord) (target : Option String) :
    List MigrationRecord :=
  insSort (fun a b => strLe b.version a.version)
    (applied.filter (fun r =>
      match target with
      | some t => strLt t r.version
      | none => true))

/-- The rollback selection as amended: a supplied empty-string `target` is
falsy and behaves like an omitted target. -/
def specRollbackAmended (applied : List MigrationRecord) (target : Option String) :
    List MigrationRecord :=
  insSort (fun a b => strLe b.version a.version)
    (applied.filter (fun r =>
      match target with
      | some t => if t = "" then true else strLt t r.version
      | none => true))

/-- An applied record with an empty version string. -/
def emptyVerRec : MigrationRecord := ⟨"", "x", 0, ""⟩

/-- The pending set exactly as the claim states it: restricted to
`version <= target` whenever `target` is given. -/
def specPendingStated (defs : List Migration) (appliedVersions : List String)
    (target : Option String) : List Migration :=
  match target with
  | some t =>
    (defs.filter (fun m => !(appliedVersions.contains m.version))).filter
      (fun m => strLe m.version t)
  | none => defs.filter (fun m => !(appliedVersions.contains m.version))

/-- The pending set as amended: a supplied empty-string `target` is falsy
and imposes no restriction. -/
def specPendingAmended (defs : List Migration) (appliedVersions : List String)
    (target : Option String) : List Migration :=
  match target with
  | some t =>
    if t = "" then defs.filter (fun m => !(appliedVersions.contains m.version))
    else (defs.filter (fun m => !(appliedVersions.contains m.version))).filter
      (fun m => strLe m.version t)
  | none => defs.filter (fun m => !(appliedVersions.contains m.version))

/-- State after the single users migration applied successfully. -/
def okUpSt : DbState :=
  ⟨true, [mkRecord 0 usersMig], [("20240101120000", "CREATE TABLE users ();")]⟩

theorem charListLe_total : ∀ a b : List Char, (charListLe a b || charListLe b a) = true := by
  intro a
  induction a with
  | nil => intro b; simp [charListLe]
  | cons c cs ih =>
    intro b
    cases b with
    | nil => simp [charListLe]
    | cons d ds =>
      by_cases h1 : c.toNat < d.toNat
      · simp [charListLe, h1]
      · by_cases h2 : d.toNat < c.toNat
        · simp [charListLe, h1, h2]
        · simpa [charListLe, h1, h2] using ih ds

theorem charListLe_trans :
    ∀ a b c : List Char, charListLe a b = true → charListLe b c = true → charListLe a c = true := by
  intro a
  induction a with
  | nil => intro b c _ _; simp [charListLe]
  | cons x xs ih =>
    intro b c hab hbc
    cases b with
    | nil => simp [charListLe] at hab
    | cons y ys =>
      cases c with
      | nil => simp [charListLe] at hbc
      | cons z zs =>
        simp only [charListLe] at hab hbc ⊢
        by_cases hxy : x.toNat < y.toNat
        · by_cases hyz : y.toNat < z.toNat
          · have : x.toNat < z.toNat := Nat.lt_trans hxy hyz
            simp [this]
          · by_cases hzy : z.toNat < y.toNat
            · simp [hyz, hzy] at hbc
            · have hyz' : y.toNat = z.toNat := Nat.le_antisymm (Nat.le_of_not_lt hzy) (Nat.le_of_not_lt hyz)
              have : x.toNat < z.toNat := hyz' ▸ hxy
              simp [this]
        · by_cases hyx : y.toNat < x.toNat
          · simp [hxy, hyx] at hab
          · have hxy' : x.toNat = y.toNat := Nat.le_antisymm (Nat.le_of_not_lt hyx) (Nat.le_of_not_lt hxy)
            simp only [hxy, hyx, if_false, if_true] at hab
            by_cases hyz : y.toNat < z.toNat
            · have : x.toNat < z.toNat := hxy' ▸ hyz
              simp [this]
            · by_cases hzy : z.toNat < y.toNat
              · simp [hyz, hzy] at hbc
              · simp only [hyz, hzy, if_false] at hbc
                have h1 : ¬ x.toNat < z.toNat := by omega
                have h2 : ¬ z.toNat < x.toNat := by omega
                simp [h1, h2, ih ys zs hab hbc]

theorem strLe_total : ∀ a b : String, (strLe a b || strLe b a) = true := by
  intro a b; exact charListLe_total a.data b.data

theorem strLe_trans :
    ∀ a b c : String, strLe a b = true → strLe b c = true → strLe a c = true := by
  intro a b c; exact charListLe_trans a.data b.data c.data

theorem mem_insLe {α : Type} (le : α → α → Bool) (x a : α) :
    ∀ l : List α, a ∈ insLe le x l ↔ a = x ∨ a ∈ l := by
  intro l
  induction l with
  | nil => simp [insLe]
  | cons y ys ih =>
    by_cases h : le x y = true
    · simp [insLe, h]
    · have hrw : insLe le x (y :: ys) = y :: insLe le x ys := by simp [insLe, h]
      rw [hrw]
      simp only [List.mem_cons, ih]
      tauto

theorem mem_insSort {α : Type} (le : α → α → Bool) (a : α) :
    ∀ l : List α, a ∈ insSort le l ↔ a ∈ l := by
  intro l
  induction l with
  | nil => simp [insSort]
  | cons x xs ih => simp [insSort, mem_insLe, ih]

theorem pairwise_insLe {α : Type} (le : α → α → Bool)
    (htot : ∀ a b, (le a b || le b a) = true)
    (htrans : ∀ a b c, le a b = true → le b c = true → le a c = true)
    (x : α) :
    ∀ l : List α, List.Pairwise (fun a b => le a b = true) l →
      List.Pairwise (fun a b => le a b = true) (insLe le x l) := by
  intro l
  induction l with
  | nil => intro _; simp [insLe]
  | cons y ys ih =>
    intro h
    rcases List.pairwise_cons.mp h with ⟨hy, hys⟩
    by_cases hxy : le x y = true
    · have hrw : insLe le x (y :: ys) = x :: y :: ys := by simp [insLe, hxy]
      rw [hrw]
      refine List.pairwise_cons.mpr ⟨?_, h⟩
      intro z hz
      rcases List.mem_cons.mp hz with rfl | hz'
      · exact hxy
      · exact htrans x y z hxy (hy z hz')
    · have hyx : le y x = true := by
        have := htot x y
        rcases Bool.or_eq_true_iff.mp this with h1 | h2
        · exact absurd h1 hxy
        · exact h2
      have hrw : insLe le x (y :: ys) = y :: insLe le x ys := by simp [insLe, hxy]
      rw [hrw]
      refine List.pairwise_cons.mpr ⟨?_, ih hys⟩
      intro z hz
      rcases (mem_insLe le x z ys).mp hz with rfl | hz'
      · exact hyx
      · exact hy z hz'

theorem pairwise_insSort {α : Type} (le : α → α → Bool)
    (htot : ∀ a b, (le a b || le b a) = true)
    (htrans : ∀ a b c, le a b = true → le b c = true → le a c = true) :
    ∀ l : List α, List.Pairwise (fun a b => le a b = true) (insSort le l) := by
  intro l
  induction l with
  | nil => simp [insSort]
  | cons x xs ih => exact pairwise_insLe le htot htrans x _ ih

/-- The implementation reproduces the published FIPS 180-4 test vectors,
so `sha256HexOfString` really is SHA-256. -/
theorem sha256_test_vectors :
    sha256HexOfString "abc"
        = "ba7816bf8f01cfea414140de5dae2223b00361a396177a9cb410ff61f20015ad"
      ∧ sha256HexOfString ""
        = "e3b0c44298fc1c149afbf4c8996fb92427ae41e4649b934ca495991b7852b855" := by
  constructor <;> decide

/-! ### Behaviour of the execution loops -/
theorem runUpList_dryRun (sqlOk : String → Bool) (now : Nat) :
    ∀ (ms : List Migration) (st : DbState), runUpList sqlOk now true ms st = (st, none) := by
  intro ms
  induction ms with
  | nil => intro st; rfl
  | cons m rest ih => intro st; simpa [runUpList] using ih st

theorem runDownList_dryRun (sqlOk : String → Bool) (defs : List Migration) :
    ∀ (rs : List MigrationRecord) (st : DbState),
      runDownList sqlOk defs true rs st = (st, none) := by
  intro rs
  induction rs with
  | nil => intro st; rfl
  | cons r rest ih =>
    intro st
    cases h : lastByVersion defs r.version with
    | none => simpa [runDownList, h] using ih st
    | some m => simpa [runDownList, h] using ih st

/-- Decomposition of a failed up loop: the final state is exactly the one
reached by committing the prefix before the failing migration, whose
transaction contributed nothing, and nothing after it ran. -/
theorem runUpList_error (sqlOk : String → Bool) (now : Nat) :
    ∀ (ms : List Migration) (st st' : DbState) (e : MigError),
      runUpList sqlOk now false ms st = (st', some e) →
      ∃ pre m post, ms = pre ++ m :: post ∧
        runUpList sqlOk now false pre st = (st', none) ∧
        applyUpTxn sqlOk now m st' = Except.error e := by
  intro ms
  induction ms with
  | nil => intro st st' e h; simp [runUpList] at h
  | cons m rest ih =>
    intro st st' e h
    simp only [runUpList, if_neg (by simp : ¬ false = true)] at h
    cases ha : applyUpTxn sqlOk now m st with
    | ok st1 =>
      rw [ha] at h
      rcases ih st1 st' e h with ⟨pre, mf, post, hsplit, hpre, hfail⟩
      refine ⟨m :: pre, mf, post, by simp [hsplit], ?_, hfail⟩
      simp [runUpList, ha, hpre]
    | error e' =>
      rw [ha] at h
      rcases Prod.mk.injEq .. ▸ h with ⟨rfl, he⟩
      refine ⟨[], m, rest, rfl, rfl, ?_⟩
      rw [ha]
      simpa using congrArg (fun o => o) (Option.some.inj he) ▸ rfl

/-- A successful (non-dry) up loop commits every migration in order:
each one appends its SQL to the log and its record to the table. -/
theorem runUpList_ok (sqlOk : String → Bool) (now : Nat) :
    ∀ (ms : List Migration) (st st' : DbState),
      runUpList sqlOk now false ms st = (st', none) →
      st'.hasTrackingTable = st.hasTrackingTable ∧
      st'.sqlLog = st.sqlLog ++ ms.map (fun m => (m.version, m.upSql)) ∧
      st'.tracking = st.tracking ++ ms.map (mkRecord now) := by
  intro ms
  induction ms with
  | nil =>
    intro st st' h
    simp only [runUpList] at h
    rcases Prod.mk.injEq .. ▸ h with ⟨rfl, _⟩
    simp
  | cons m rest ih =>
    intro st st' h
    simp only [runUpList, if_neg (by simp : ¬ false = true)] at h
    cases ha : applyUpTxn sqlOk now m st with
    | ok st1 =>
      rw [ha] at h
      rcases ih st1 st' h with ⟨ht, hl, hr⟩
      have hshape : st1.hasTrackingTable = st.hasTrackingTable ∧
          st1.sqlLog = st.sqlLog ++ [(m.version, m.upSql)] ∧
          st1.tracking = st.tracking ++ [mkRecord now m] := by
        simp only [applyUpTxn] at ha
        by_cases hs : sqlOk m.upSql = true
        · rw [if_pos hs] at ha
          by_cases hc : (st.hasTrackingTable && st.tracking.all fun r => r.version != m.version) = true
          · rw [if_pos hc] at ha
            cases ha
            simp
          · rw [if_neg hc] at ha
            cases ha
        · rw [if_neg hs] at ha
          cases ha
      refine ⟨hshape.1 ▸ ht, ?_, ?_⟩
      · rw [hl, hshape.2.1, List.append_assoc]
        simp
      · rw [hr, hshape.2.2, List.append_assoc]
        simp
    | error e' =>
      rw [ha] at h
      simp at h

/-- Decomposition of a failed down loop: the final state is the one reached
by processing (rolling back or skipping) the prefix before the failing
record, whose transaction contributed nothing, and nothing after it ran. -/
theorem runDownList_error (sqlOk : String → Bool) (defs : List Migration) :
    ∀ (rs : List MigrationRecord) (st st' : DbState) (e : MigError),
      runDownList sqlOk defs false rs st = (st', some e) →
      ∃ pre r post m, rs = pre ++ r :: post ∧
        runDownList sqlOk defs false pre st = (st', none) ∧
        lastByVersion defs r.version = some m ∧
        applyDownTxn sqlOk m r st' = Except.error e := by
  intro rs
  induction rs with
  | nil => intro st st' e h; simp [runDownList] at h
  | cons r rest ih =>
    intro st st' e h
    simp only [runDownList] at h
    cases hl : lastByVersion defs r.version with
    | none =>
      rw [hl] at h
      rcases ih st st' e h with ⟨pre, rf, post, mf, hsplit, hpre, hlast, hfail⟩
      refine ⟨r :: pre, rf, post, mf, by simp [hsplit], ?_, hlast, hfail⟩
      simp [runDownList, hl, hpre]
    | some m =>
      rw [hl] at h
      simp only [if_neg (by simp : ¬ false = true)] at h
      cases ha : applyDownTxn sqlOk m r st with
      | ok st1 =>
        rw [ha] at h
        rcases ih st1 st' e h with ⟨pre, rf, post, mf, hsplit, hpre, hlast, hfail⟩
        refine ⟨r :: pre, rf, post, mf, by simp [hsplit], ?_, hlast, hfail⟩
        simp [runDownList, hl, ha, hpre]
      | error e' =>
        rw [ha] at h
        rcases Prod.mk.injEq .. ▸ h with ⟨rfl, he⟩
        exact ⟨[], r, rest, m, rfl, rfl, hl, by rw [ha, Option.some.inj he]⟩

/-! ### Claim theorems -/
/-- C1 (code bug witness).  The spec, and the repository's own test
"should auto-initialize migrations when running migrateUp", say every
tracking-table operation auto-creates `dbuddy_migrations` when missing, and
that `migrateUp` succeeds on a fresh database.  The code does not: on a
database without the tracking table, with one pending migration whose SQL
succeeds, `migrateUp` fails (the INSERT into the missing table aborts the
transaction) and leaves the database untouched — the table is only created
by an explicit `initialize()`, after which the same call succeeds; and
`getStatus` merely reports an empty applied set without creating the
table. -/
theorem migrateUp_fails_without_tracking_table :
    migrateUpOnDb (fun _ => true) 0 exFiles exContent none false freshDb
        = (freshDb, some (MigError.recordFailed "20240101120000" "add_users"))
      ∧ (migrateUpOnDb (fun _ => true) 0 exFiles exContent none false
          (initTracking freshDb)).2 = none
      ∧ getStatusOnDb exFiles exContent freshDb
        = [⟨"20240101120000", "add_users", MigStatusKind.pending, none⟩] := by
  refine ⟨by decide, by decide, by decide⟩

/-- C2: each migration of a batch runs inside one all-or-nothing
transaction; on the first error that transaction contributes nothing, the
remaining migrations are never attempted, the error is surfaced, and the
final state is exactly the state after the last successful commit (for up:
the prefix's SQL bodies and tracking rows, fully, and nothing else). -/
theorem migration_batches_transactional :
    ∀ (sqlOk : String → Bool) (now : Nat) (files : List String)
      (content : String → String) (queryResult : Except DbError (List MigrationRecord))
      (target : Option String) (st st' : DbState) (e : MigError),
      (migrateUp sqlOk now files content queryResult target false st = (st', some e) →
        ∃ pre m post,
          pendingUp (loadMigrationFiles files content)
              ((getAppliedMigrations queryResult).map (fun r => r.version)) target
            = pre ++ m :: post ∧
          runUpList sqlOk now false pre st = (st', none) ∧
          st'.sqlLog = st.sqlLog ++ pre.map (fun x => (x.version, x.upSql)) ∧
          st'.tracking = st.tracking ++ pre.map (mkRecord now) ∧
          applyUpTxn sqlOk now m st' = Except.error e) ∧
      (migrateDown sqlOk files content queryResult target false st = (st', some e) →
        ∃ pre r post m,
          selectRollback (getAppliedMigrations queryResult) target = pre ++ r :: post ∧
          runDownList sqlOk (loadMigrationFiles files content) false pre st = (st', none) ∧
          lastByVersion (loadMigrationFiles files content) r.version = some m ∧
          applyDownTxn sqlOk m r st' = Except.error e) := by
  intro sqlOk now files content queryResult target st st' e
  constructor
  · intro h
    rcases runUpList_error sqlOk now _ st st' e h with ⟨pre, m, post, hsplit, hpre, hfail⟩
    rcases runUpList_ok sqlOk now pre st st' hpre with ⟨_, hlog, htrack⟩
    exact ⟨pre, m, post, hsplit, hpre, hlog, htrack, hfail⟩
  · intro h
    exact runDownList_error sqlOk _ _ st st' e h

theorem migration_batches_transactional_witness :
    (∃ pre m post,
        pendingUp (loadMigrationFiles exFiles2 exContent2) [] none = pre ++ m :: post ∧
        runUpList upFailOracle 0 false pre (initTracking freshDb) = (upErrSt, none) ∧
        upErrSt.sqlLog = (initTracking freshDb).sqlLog
          ++ pre.map (fun x => (x.version, x.upSql)) ∧
        upErrSt.tracking = (initTracking freshDb).tracking ++ pre.map (mkRecord 0) ∧
        applyUpTxn upFailOracle 0 m upErrSt
          = Except.error (MigError.sqlFailed "20240101130000" "add_posts"
              "CREATE TABLE posts ();")) ∧
    (∃ pre r post m,
        selectRollback [ruRec, rpRec] none = pre ++ r :: post ∧
        runDownList downFailOracle (loadMigrationFiles exFiles2 exContent2) false pre
          downStartSt = (downErrSt, none) ∧
        lastByVersion (loadMigrationFiles exFiles2 exContent2) r.version = some m ∧
        applyDownTxn downFailOracle m r downErrSt
          = Except.error (MigError.sqlFailed "20240101120000" "add_users"
              "DROP TABLE users;")) :=
  ⟨(migration_batches_transactional upFailOracle 0 exFiles2 exContent2 (Except.ok [])
      none (initTracking freshDb) upErrSt
      (MigError.sqlFailed "20240101130000" "add_posts" "CREATE TABLE posts ();")).1
    (by decide),
   (migration_batches_transactional downFailOracle 0 exFiles2 exContent2
      (Except.ok [ruRec, rpRec]) none downStartSt downErrSt
      (MigError.sqlFailed "20240101120000" "add_users" "DROP TABLE users;")).2
    (by decide)⟩

/-- C5: with `dryRun: true`, `migrateUp` and `migrateDown` return without
touching the database — no error, no SQL, no tracking change — and a
subsequent `getStatus` is identical to one taken before. -/
theorem dry_run_leaves_database_unchanged :
    ∀ (sqlOk : String → Bool) (now : Nat) (files : List String)
      (content : String → String) (target : Option String) (st : DbState),
      migrateUpOnDb sqlOk now files content target true st = (st, none) ∧
      migrateDownOnDb sqlOk files content target true st = (st, none) ∧
      getStatusOnDb files content
          (migrateUpOnDb sqlOk now files content target true st).1
        = getStatusOnDb files content st ∧
      getStatusOnDb files content
          (migrateDownOnDb sqlOk files content target true st).1
        = getStatusOnDb files content st := by
  intro sqlOk now files content target st
  have hup : migrateUpOnDb sqlOk now files content target true st = (st, none) :=
    runUpList_dryRun sqlOk now _ st
  have hdown : migrateDownOnDb sqlOk files content target true st = (st, none) :=
    runDownList_dryRun sqlOk _ _ st
  exact ⟨hup, hdown, by rw [hup], by rw [hdown]⟩

/-- C9: `getAppliedMigrations` turns EVERY tracking-table read error —
missing table, connection failure, permission error, anything — into the
empty applied list, so `getStatus`, `migrateUp` and `migrateDown` behave
exactly as if no migrations were applied and never surface the read
error. -/
theorem tracking_read_errors_swallowed :
    ∀ (e : DbError) (files : List String) (content : String → String)
      (sqlOk : String → Bool) (now : Nat) (target : Option String)
      (dryRun : Bool) (st : DbState),
      getAppliedMigrations (Except.error e) = [] ∧
      getStatus files content (Except.error e)
        = getStatus files content (Except.ok []) ∧
      migrateUp sqlOk now files content (Except.error e) target dryRun st
        = migrateUp sqlOk now files content (Except.ok []) target dryRun st ∧
      migrateDown sqlOk files content (Except.error e) target dryRun st
        = migrateDown sqlOk files content (Except.ok []) target dryRun st := by
  intro e files content sqlOk now target dryRun st
  exact ⟨rfl, rfl, rfl, rfl⟩

theorem parseNameDir_spec {cs nm : List Char} {d : Direction}
    (h : parseNameDir cs = some (nm, d)) :
    cs = nm ++ (dirSuffix d).data := by
  unfold parseNameDir at h
  split at h
  next hc =>
    rcases Option.some.inj h with h'
    cases h'
    conv_lhs => rw [(List.take_append_drop (cs.length - 7) cs).symm]
    rw [hc.2.1]
    rfl
  next hc1 =>
    split at h
    next hc =>
      rcases Option.some.inj h with h'
      cases h'
      conv_lhs => rw [(List.take_append_drop (cs.length - 9) cs).symm]
      rw [hc.2.1]
      rfl
    next hc2 => exact absurd h (by simp)

theorem parseMigrationFile_spec {f v n : String} {d : Direction}
    (h : parseMigrationFile f = some (v, n, d)) :
    f = migFilename v n d ∧ v.length = 14 := by
  unfold parseMigrationFile at h
  split at h
  case isFalse => exact absurd h (by simp)
  case isTrue hc =>
    split at h
    next c tail hd =>
      split at h
      next hC =>
        split at h
        next nm d' heq =>
          rcases Option.some.inj h with h'
          obtain ⟨h1, h2, h3⟩ : String.mk (f.data.take 14) = v ∧ String.mk nm = n ∧ d' = d := by
            simpa [Prod.ext_iff] using h'
          subst h1
          subst h2
          subst h3
          have htail : tail = nm ++ (dirSuffix d').data := parseNameDir_spec heq
          constructor
          · apply String.ext
            have hfdata : f.data = f.data.take 14 ++ (c :: tail) := by
              conv_lhs => rw [(List.take_append_drop 14 f.data).symm]
              rw [hd]
            have hmig : (migFilename (String.mk (f.data.take 14)) (String.mk nm) d').data
                = f.data.take 14 ++ ('_' :: (nm ++ (dirSuffix d').data)) := by
              cases d' <;> simp [migFilename, String.data_append, dirSuffix]
            rw [hmig]
            conv_lhs => rw [hfdata]
            rw [hC, htail]
          · show (String.mk (f.data.take 14)).length = 14
            exact hc.1
        next heq => exact absurd h (by simp)
      next hC => exact absurd h (by simp)
    next hd => exact absurd h (by simp)

/-- Two well-formed keys agree only on identical `(version, name)` pairs:
the version is always exactly 14 characters, so the key is unambiguous. -/
theorem key_inj {v v' n n' : String} (hv : v.length = 14) (hv' : v'.length = 14)
    (h : v ++ "_" ++ n = v' ++ "_" ++ n') : v = v' ∧ n = n' := by
  have hd : (v.data ++ ['_']) ++ n.data = (v'.data ++ ['_']) ++ n'.data := by
    have h2 := congrArg String.data h
    simpa [String.data_append] using h2
  have hlen : (v.data ++ ['_']).length = (v'.data ++ ['_']).length := by
    have hv2 : v.data.length = 14 := hv
    have hv2' : v'.data.length = 14 := hv'
    simp [List.length_append, hv2, hv2']
  rcases List.append_inj hd hlen with ⟨h1, h2⟩
  have hvdata : v.data = v'.data := by
    have hlen2 : v.data.length = v'.data.length := by
      have hv2 : v.data.length = 14 := hv
      have hv2' : v'.data.length = 14 := hv'
      rw [hv2, hv2']
    exact (List.append_inj h1 hlen2).1
  exact ⟨String.ext hvdata, String.ext h2⟩

theorem setDir_up_entryOk (files : List String) (content : String → String)
    {f v n : String} (hf : f ∈ files)
    (hparse : parseMigrationFile f = some (v, n, Direction.up))
    {k : String} {p : MigGroup} (hOk : entryOk files content k p)
    (hv1 : v = p.version) (hn1 : n = p.name) :
    entryOk files content k (setDir p Direction.up (content f)) := by
  rcases hOk with ⟨hkey, hplen, _, hdown⟩
  refine ⟨hkey, hplen, ?_, hdown⟩
  intro u hu
  have hu' : some (content f) = some u := hu
  rcases Option.some.inj hu' with rfl
  refine ⟨f, hf, ?_, rfl⟩
  show parseMigrationFile f = some (p.version, p.name, Direction.up)
  rw [← hv1, ← hn1]
  exact hparse

theorem setDir_down_entryOk (files : List String) (content : String → String)
    {f v n : String} (hf : f ∈ files)
    (hparse : parseMigrationFile f = some (v, n, Direction.down))
    {k : String} {p : MigGroup} (hOk : entryOk files content k p)
    (hv1 : v = p.version) (hn1 : n = p.name) :
    entryOk files content k (setDir p Direction.down (content f)) := by
  rcases hOk with ⟨hkey, hplen, hup, _⟩
  refine ⟨hkey, hplen, hup, ?_⟩
  intro w hw
  have hw' : some (content f) = some w := hw
  rcases Option.some.inj hw' with rfl
  refine ⟨f, hf, ?_, rfl⟩
  show parseMigrationFile f = some (p.version, p.name, Direction.down)
  rw [← hv1, ← hn1]
  exact hparse

theorem updateEntry_entryOk (files : List String) (content : String → String)
    {f v n : String} {d : Direction}
    (hf : f ∈ files) (hparse : parseMigrationFile f = some (v, n, d)) :
    ∀ acc : List (String × MigGroup),
      (∀ kp ∈ acc, entryOk files content kp.1 kp.2) →
      ∀ kp ∈ updateEntry (v ++ "_" ++ n) v n d (content f) acc,
        entryOk files content kp.1 kp.2 := by
  have hvlen : v.length = 14 := (parseMigrationFile_spec hparse).2
  intro acc
  induction acc with
  | nil =>
    intro _ kp hkp
    simp only [updateEntry, List.mem_singleton] at hkp
    subst hkp
    show entryOk files content (v ++ "_" ++ n) (setDir ⟨v, n, none, none⟩ d (content f))
    have hbase : entryOk files content (v ++ "_" ++ n) ⟨v, n, none, none⟩ := by
      refine ⟨rfl, hvlen, ?_, ?_⟩
      · intro u hu; exact absurd hu (by simp)
      · intro w hw; exact absurd hw (by simp)
    cases d with
    | up => exact setDir_up_entryOk files content hf hparse hbase rfl rfl
    | down => exact setDir_down_entryOk files content hf hparse hbase rfl rfl
  | cons hd tl ih =>
    intro hacc kp hkp
    obtain ⟨k', p⟩ := hd
    have hheadOk : entryOk files content k' p := hacc (k', p) (by simp)
    have htlOk : ∀ kp ∈ tl, entryOk files content kp.1 kp.2 :=
      fun x hx => hacc x (by simp [hx])
    by_cases hk : k' = v ++ "_" ++ n
    · rw [updateEntry, if_pos hk] at hkp
      rcases List.mem_cons.mp hkp with rfl | htl
      · show entryOk files content k' (setDir p d (content f))
        have hvn := key_inj hvlen hheadOk.2.1 (by rw [← hk]; exact hheadOk.1)
        cases d with
        | up => exact setDir_up_entryOk files content hf hparse hheadOk hvn.1 hvn.2
        | down => exact setDir_down_entryOk files content hf hparse hheadOk hvn.1 hvn.2
      · exact htlOk _ htl
    · rw [updateEntry, if_neg hk] at hkp
      rcases List.mem_cons.mp hkp with rfl | htl
      · exact hheadOk
      · exact ih htlOk _ htl

theorem buildMap_entryOk (files : List String) (content : String → String) :
    ∀ (fs : List String) (acc : List (String × MigGroup)),
      (∀ f ∈ fs, f ∈ files) →
      (∀ kp ∈ acc, entryOk files content kp.1 kp.2) →
      ∀ kp ∈ buildMap content fs acc, entryOk files content kp.1 kp.2 := by
  intro fs
  induction fs with
  | nil => intro acc _ hacc kp hkp; exact hacc kp hkp
  | cons f rest ih =>
    intro acc hfs hacc kp hkp
    have hfrest : ∀ g ∈ rest, g ∈ files := fun g hg => hfs g (by simp [hg])
    rw [buildMap] at hkp
    cases hparse : parseMigrationFile f with
    | none =>
      rw [hparse] at hkp
      exact ih acc hfrest hacc kp hkp
    | some res =>
      obtain ⟨v, n, d⟩ := res
      rw [hparse] at hkp
      exact ih _ hfrest
        (updateEntry_entryOk files content (hfs f (by simp)) hparse acc hacc) kp hkp

/-- Soundness of `loadMigrationFiles`: every returned definition has
non-empty bodies taken from an up file and a down file of the directory
that parse to its `(version, name)`. -/
theorem loadMigrationFiles_sound (files : List String) (content : String → String) :
    ∀ m ∈ loadMigrationFiles files content,
      m.upSql ≠ "" ∧ m.downSql ≠ "" ∧
      (∃ f ∈ files, parseMigrationFile f = some (m.version, m.name, Direction.up)
        ∧ m.upSql = content f) ∧
      (∃ f ∈ files, parseMigrationFile f = some (m.version, m.name, Direction.down)
        ∧ m.downSql = content f) := by
  intro m hm
  rw [loadMigrationFiles, mem_insSort] at hm
  rcases List.mem_filterMap.mp hm with ⟨kp, hkp, hcomp⟩
  have hOk : entryOk files content kp.1 kp.2 :=
    buildMap_entryOk files content files [] (fun f hf => hf) (by simp) kp hkp
  rcases hOk with ⟨_, _, hup, hdown⟩
  unfold completeOf at hcomp
  split at hcomp
  next u w hequ heqw =>
    split at hcomp
    next => exact absurd hcomp (by simp)
    next hne =>
      rcases Option.some.inj hcomp with h'
      cases h'
      push_neg at hne
      refine ⟨hne.1, hne.2, ?_, ?_⟩
      · exact hup u hequ
      · exact hdown w heqw
  next hother => exact absurd hcomp (by simp)

theorem statusOf_fields (applied : List MigrationRecord) (m : Migration) :
    (statusOf applied m).version = m.version ∧ (statusOf applied m).name = m.name := by
  unfold statusOf
  split <;> simp

theorem mem_pendingUp (defs : List Migration) (appliedVersions : List String)
    (target : Option String) (m : Migration) :
    m ∈ pendingUp defs appliedVersions target → m ∈ defs := by
  unfold pendingUp
  intro h
  by_cases hc : truthyOpt target = true
  · rw [if_pos hc] at h
    exact (List.mem_filter.mp (List.mem_filter.mp h).1).1
  · rw [if_neg hc] at h
    exact (List.mem_filter.mp h).1

theorem lastByVersion_mem (defs : List Migration) (v : String) (m : Migration) :
    lastByVersion defs v = some m → m ∈ defs := by
  intro h
  exact List.mem_reverse.mp (List.mem_of_find?_eq_some h)

/-- C6: the migration file store yields definitions only from files
matching the grammar of the regex (every returned definition comes
from an up file and a down file that parse to its version and name);
non-matching files are skipped with no effect at all; a `(version, name)`
group lacking either direction never reaches the result (it is only warned
about); and the result is sorted ascending by version in byte/lexicographic
string order. -/
theorem file_store_grammar_skip_and_order :
    ∀ (files : List String) (content : String → String),
      (∀ m ∈ loadMigrationFiles files content,
        ∃ fu ∈ files, ∃ fd ∈ files,
          parseMigrationFile fu = some (m.version, m.name, Direction.up) ∧
          m.upSql = content fu ∧
          parseMigrationFile fd = some (m.version, m.name, Direction.down) ∧
          m.downSql = content fd) ∧
      (∀ f, parseMigrationFile f = none →
        loadMigrationFiles (f :: files) content = loadMigrationFiles files content) ∧
      List.Pairwise (fun a b => strLe a.version b.version = true)
        (loadMigrationFiles files content) ∧
      (∀ v n,
        ((∀ f ∈ files, parseMigrationFile f ≠ some (v, n, Direction.up)) ∨
         (∀ f ∈ files, parseMigrationFile f ≠ some (v, n, Direction.down))) →
        ∀ m ∈ loadMigrationFiles files content, ¬(m.version = v ∧ m.name = n)) := by
  intro files content
  refine ⟨?_, ?_, ?_, ?_⟩
  · intro m hm
    rcases loadMigrationFiles_sound files content m hm with
      ⟨_, _, ⟨fu, hfu, hpu, hcu⟩, ⟨fd, hfd, hpd, hcd⟩⟩
    exact ⟨fu, hfu, fd, hfd, hpu, hcu, hpd, hcd⟩
  · intro f hf
    unfold loadMigrationFiles
    rw [buildMap, hf]
  · exact pairwise_insSort _ (fun a b => strLe_total a.version b.version)
      (fun a b c hab hbc => strLe_trans a.version b.version c.version hab hbc) _
  · rintro v n hlack m hm ⟨hv, hn⟩
    rcases loadMigrationFiles_sound files content m hm with
      ⟨_, _, ⟨fu, hfu, hpu, _⟩, ⟨fd, hfd, hpd, _⟩⟩
    rcases hlack with hnoup | hnodown
    · exact hnoup fu hfu (by rw [hpu, hv, hn])
    · exact hnodown fd hfd (by rw [hpd, hv, hn])

theorem file_store_grammar_skip_and_order_witness :
    loadMigrationFiles ("LICENSE" :: exFiles) exContent
        = loadMigrationFiles exFiles exContent ∧
    ¬(usersMig.version = "20240101120000" ∧ usersMig.name = "ghost") :=
  ⟨(file_store_grammar_skip_and_order exFiles exContent).2.1 "LICENSE" (by decide),
   (file_store_grammar_skip_and_order exFiles exContent).2.2.2 "20240101120000" "ghost"
     (Or.inl (by decide)) usersMig (by decide)⟩

/-- C10: completeness of a `(version, name)` pair is decided by JavaScript
truthiness of the loaded content, not by file presence: when both files
exist but either body is the empty string, the pair is treated as
incomplete — warned about and dropped — so it never appears in the loaded
definitions or in `getStatus`, is never attempted by `migrateUp`, and is
never used to roll a record back in `migrateDown`. -/
theorem empty_sql_body_drops_migration :
    ∀ (files : List String) (content : String → String) (v n fu fd : String),
      fu ∈ files → fd ∈ files →
      parseMigrationFile fu = some (v, n, Direction.up) →
      parseMigrationFile fd = some (v, n, Direction.down) →
      (content fu = "" ∨ content fd = "") →
      (∀ m ∈ loadMigrationFiles files content, ¬(m.version = v ∧ m.name = n)) ∧
      (∀ queryResult, ∀ s ∈ getStatus files content queryResult,
        ¬(s.version = v ∧ s.name = n)) ∧
      (∀ appliedVersions target,
        ∀ m ∈ pendingUp (loadMigrationFiles files content) appliedVersions target,
          ¬(m.version = v ∧ m.name = n)) ∧
      (∀ rv m, lastByVersion (loadMigrationFiles files content) rv = some m →
        ¬(m.version = v ∧ m.name = n)) := by
  intro files content v n fu fd hfu hfd hpu hpd hempty
  have hcore : ∀ m ∈ loadMigrationFiles files content, ¬(m.version = v ∧ m.name = n) := by
    rintro m hm ⟨hv, hn⟩
    rcases loadMigrationFiles_sound files content m hm with
      ⟨hne_u, hne_w, ⟨f1, _, hp1, hc1⟩, ⟨f2, _, hp2, hc2⟩⟩
    rcases hempty with hEu | hEd
    · have e1 := (parseMigrationFile_spec hp1).1
      have e2 := (parseMigrationFile_spec hpu).1
      have hf1fu : f1 = fu := by rw [e1, hv, hn, ← e2]
      exact hne_u (by rw [hc1, hf1fu, hEu])
    · have e1 := (parseMigrationFile_spec hp2).1
      have e2 := (parseMigrationFile_spec hpd).1
      have hf2fd : f2 = fd := by rw [e1, hv, hn, ← e2]
      exact hne_w (by rw [hc2, hf2fd, hEd])
  refine ⟨hcore, ?_, ?_, ?_⟩
  · intro queryResult s hs
    rcases List.mem_map.mp hs with ⟨m, hm, hsm⟩
    have hfields := statusOf_fields (getAppliedMigrations queryResult) m
    rintro ⟨hv, hn⟩
    refine hcore m hm ⟨?_, ?_⟩
    · rw [← hfields.1, hsm, hv]
    · rw [← hfields.2, hsm, hn]
  · intro appliedVersions target m hm
    exact hcore m (mem_pendingUp _ _ _ m hm)
  · intro rv m hm
    exact hcore m (lastByVersion_mem _ _ m hm)

theorem empty_sql_body_drops_migration_witness :
    ¬(postsMig.version = "20240101120000" ∧ postsMig.name = "add_users") :=
  (empty_sql_body_drops_migration exFiles2 exContentEmptyUp "20240101120000" "add_users"
      "20240101120000_add_users.up.sql" "20240101120000_add_users.down.sql"
      (by decide) (by decide) (by decide) (by decide) (Or.inl (by decide))).1
    postsMig (by decide)

/-! ### C8: the checksum contract -/
theorem strBytes_append (a b : String) : strBytes (a ++ b) = strBytes a ++ strBytes b := by
  unfold strBytes
  rw [String.data_append, List.flatMap_append]

theorem toHex8_length (n : Nat) : (toHex8 n).length = 8 := by
  show ((List.range 8).map _).length = 8
  rw [List.length_map, List.length_range]

theorem sha256Hex_length (msg : List Nat) : (sha256Hex msg).length = 64 := by
  unfold sha256Hex
  simp only [String.length_append, toHex8_length]

/-- C8: the recorded checksum is the SHA-256 digest — rendered as a
fixed-length (64-character) hex string — of the byte stream of `upSql`
followed by the byte stream of `downSql`, in that order. -/
theorem checksum_is_sha256_of_concat :
    ∀ upSql downSql : String,
      calculateChecksum upSql downSql
          = sha256Hex (strBytes upSql ++ strBytes downSql) ∧
      (calculateChecksum upSql downSql).length = 64 := by
  intro upSql downSql
  constructor
  · show sha256Hex (strBytes (upSql ++ downSql)) = _
    rw [strBytes_append]
  · show (sha256HexOfString (upSql ++ downSql)).length = 64
    exact sha256Hex_length _

/-! ### C7: the status report -/
theorem forall₂_map_self {α β : Type} (P : α → β → Prop) (f : α → β) :
    ∀ l : List α, (∀ x ∈ l, P x (f x)) → List.Forall₂ P l (l.map f) := by
  intro l
  induction l with
  | nil => intro _; exact List.Forall₂.nil
  | cons x xs ih =>
    intro h
    exact List.Forall₂.cons (h x (by simp)) (ih (fun y hy => h y (by simp [hy])))

theorem statusOf_spec (applied : List MigrationRecord) (m : Migration) :
    (statusOf applied m).version = m.version ∧
    (statusOf applied m).name = m.name ∧
    ((statusOf applied m).status = MigStatusKind.applied ↔
      ∃ r ∈ applied, r.version = m.version) ∧
    ((statusOf applied m).status = MigStatusKind.pending ↔
      ¬∃ r ∈ applied, r.version = m.version) ∧
    ((statusOf applied m).appliedAt ≠ none ↔
      (statusOf applied m).status = MigStatusKind.applied) := by
  unfold statusOf
  cases hf : applied.reverse.find? (fun r => r.version == m.version) with
  | some r =>
    have hmem : r ∈ applied := List.mem_reverse.mp (List.mem_of_find?_eq_some hf)
    have hver : r.version = m.version := by simpa using List.find?_some hf
    simp only [hf]
    refine ⟨by simp, by simp, ?_, ?_, ?_⟩
    · simp only [true_iff]
      exact ⟨r, hmem, hver⟩
    · constructor
      · intro h; cases h
      · intro h; exact absurd ⟨r, hmem, hver⟩ h
    · simp
  | none =>
    have hnone : ∀ r ∈ applied, ¬(r.version = m.version) := by
      intro r hr
      have := List.find?_eq_none.mp hf r (List.mem_reverse.mpr hr)
      simpa using this
    simp only [hf]
    refine ⟨by simp, by simp, ?_, ?_, ?_⟩
    · constructor
      · intro h; cases h
      · rintro ⟨r, hr, hv⟩; exact absurd hv (hnone r hr)
    · simp only [true_iff]
      rintro ⟨r, hr, hv⟩; exact absurd hv (hnone r hr)
    · constructor
      · intro h; exact absurd rfl h
      · intro h; cases h

/-- C7: `getStatus` reports one entry per discovered definition, in order,
whose status is `applied` exactly when a tracking record with the same
version exists (`pending` otherwise), and which carries `appliedAt` exactly
in the applied case; with no applied records, every discovered migration is
`pending` with no `appliedAt`. -/
theorem getStatus_one_entry_per_definition :
    ∀ (files : List String) (content : String → String)
      (queryResult : Except DbError (List MigrationRecord)),
      List.Forall₂
        (fun (m : Migration) (s : MigrationStatus) =>
          s.version = m.version ∧ s.name = m.name ∧
          (s.status = MigStatusKind.applied ↔
            ∃ r ∈ getAppliedMigrations queryResult, r.version = m.version) ∧
          (s.status = MigStatusKind.pending ↔
            ¬∃ r ∈ getAppliedMigrations queryResult, r.version = m.version) ∧
          (s.appliedAt ≠ none ↔ s.status = MigStatusKind.applied))
        (loadMigrationFiles files content) (getStatus files content queryResult) ∧
      (getAppliedMigrations queryResult = [] →
        ∀ s ∈ getStatus files content queryResult,
          s.status = MigStatusKind.pending ∧ s.appliedAt = none) := by
  intro files content queryResult
  constructor
  · exact forall₂_map_self _ _ _
      (fun m _ => statusOf_spec (getAppliedMigrations queryResult) m)
  · intro hempty s hs
    rcases List.mem_map.mp hs with ⟨m, _, hsm⟩
    have hspec := statusOf_spec (getAppliedMigrations queryResult) m
    have hpend : (statusOf (getAppliedMigrations queryResult) m).status
        = MigStatusKind.pending := by
      apply hspec.2.2.2.1.mpr
      rintro ⟨r, hr, _⟩
      rw [hempty] at hr
      cases hr
    constructor
    · rw [← hsm]; exact hpend
    · rw [← hsm]
      by_contra hne
      have := hspec.2.2.2.2.mp hne
      rw [hpend] at this
      cases this

theorem getStatus_one_entry_per_definition_witness :
    MigrationStatus.mk "20240101120000" "add_users" MigStatusKind.pending none
        ∈ getStatus exFiles exContent (Except.ok []) ∧
    (MigrationStatus.mk "20240101120000" "add_users" MigStatusKind.pending none).status
        = MigStatusKind.pending ∧
    (MigrationStatus.mk "20240101120000" "add_users" MigStatusKind.pending none).appliedAt
        = none :=
  ⟨by decide,
   (getStatus_one_entry_per_definition exFiles exContent (Except.ok [])).2 rfl
     (MigrationStatus.mk "20240101120000" "add_users" MigStatusKind.pending none)
     (by decide)⟩

/-- C3 as stated is false: with `target` supplied as `""`, the code keeps
an applied record whose version is not strictly greater than the target. -/
theorem migrateDown_selection_counterexample :
    selectRollback [emptyVerRec] (some "")
      ≠ specRollbackStated [emptyVerRec] (some "") := by decide

/-- C3 (amended): the records attempted by `migrateDown` are exactly those
with version strictly greater than `target` when a NON-EMPTY `target` is
supplied, and ALL applied records when `target` is omitted or empty; they
are processed in descending version order; and a record with no matching
file definition is warned about and skipped, the batch continuing. -/
theorem migrateDown_selection_amended :
    ∀ (applied : List MigrationRecord) (target : Option String),
      selectRollback applied target = specRollbackAmended applied target ∧
      List.Pairwise (fun a b => strLe b.version a.version = true)
        (selectRollback applied target) ∧
      (∀ (sqlOk : String → Bool) (defs : List Migration) (r : MigrationRecord)
          (rest : List MigrationRecord) (st : DbState),
        lastByVersion defs r.version = none →
        runDownList sqlOk defs false (r :: rest) st
          = runDownList sqlOk defs false rest st) := by
  intro applied target
  refine ⟨?_, ?_, ?_⟩
  · unfold selectRollback specRollbackAmended
    congr 1
    apply List.filter_congr
    intro r _
    cases target with
    | none => simp [truthyOpt]
    | some t =>
      by_cases ht : t = ""
      · subst ht; simp [truthyOpt]
      · simp [truthyOpt, ht]
  · exact pairwise_insSort _ (fun a b => strLe_total b.version a.version)
      (fun a b c hab hbc => strLe_trans c.version b.version a.version hbc hab) _
  · intro sqlOk defs r rest st hnone
    simp [runDownList, hnone]

theorem migrateDown_selection_amended_witness :
    runDownList (fun _ => true) [] false [ruRec] freshDb
      = runDownList (fun _ => true) [] false [] freshDb :=
  (migrateDown_selection_amended [ruRec] none).2.2 (fun _ => true) [] ruRec [] freshDb
    (by decide)

/-- C4 as stated is false: with `target` supplied as `""`, the code
attempts every pending migration although no version satisfies
`version <= ""`. -/
theorem migrateUp_target_counterexample :
    pendingUp (loadMigrationFiles exFiles exContent) [] (some "")
      ≠ specPendingStated (loadMigrationFiles exFiles exContent) [] (some "") := by decide

/-- C4 (amended): `migrateUp` attempts exactly the file-derived definitions
whose version is not applied, restricted to `version <= target` (string
comparison) whenever a NON-EMPTY `target` is given (an empty-string target
imposes no restriction); the attempted list is ascending by version, so for
attempted versions `v1 < v2` the SQL of `v1` runs before the SQL of `v2`
regardless of file-system enumeration order — on a fully successful run the
committed SQL log is exactly the attempted list in that order. -/
theorem migrateUp_pending_amended :
    ∀ (files : List String) (content : String → String)
      (queryResult : Except DbError (List MigrationRecord)) (target : Option String)
      (sqlOk : String → Bool) (now : Nat) (st st' : DbState),
      pendingUp (loadMigrationFiles files content)
          ((getAppliedMigrations queryResult).map (fun r => r.version)) target
        = specPendingAmended (loadMigrationFiles files content)
            ((getAppliedMigrations queryResult).map (fun r => r.version)) target ∧
      List.Pairwise (fun a b => strLe a.version b.version = true)
        (pendingUp (loadMigrationFiles files content)
          ((getAppliedMigrations queryResult).map (fun r => r.version)) target) ∧
      (runUpList sqlOk now false
          (pendingUp (loadMigrationFiles files content)
            ((getAppliedMigrations queryResult).map (fun r => r.version)) target) st
          = (st', none) →
        st'.sqlLog = st.sqlLog
          ++ (pendingUp (loadMigrationFiles files content)
              ((getAppliedMigrations queryResult).map (fun r => r.version)) target).map
            (fun m => (m.version, m.upSql))) := by
  intro files content queryResult target sqlOk now st st'
  refine ⟨?_, ?_, ?_⟩
  · unfold pendingUp specPendingAmended
    cases target with
    | none => simp [truthyOpt]
    | some t =>
      by_cases ht : t = ""
      · subst ht; simp [truthyOpt]
      · simp [truthyOpt, ht]
  · have hload := pairwise_insSort
      (fun (a b : Migration) => strLe a.version b.version)
      (fun a b => strLe_total a.version b.version)
      (fun a b c hab hbc => strLe_trans a.version b.version c.version hab hbc)
      ((buildMap content files []).filterMap (fun kp => completeOf kp.2))
    unfold pendingUp
    by_cases hc : truthyOpt target = true
    · rw [if_pos hc]
      exact (hload.filter _).filter _
    · rw [if_neg hc]
      exact hload.filter _
  · intro h
    exact (runUpList_ok sqlOk now _ st st' h).2.1

theorem migrateUp_pending_amended_witness :
    okUpSt.sqlLog = (initTracking freshDb).sqlLog
      ++ (pendingUp (loadMigrationFiles exFiles exContent)
          ((getAppliedMigrations (Except.ok [])).map (fun r => r.version)) none).map
        (fun m => (m.version, m.upSql)) :=
  (migrateUp_pending_amended exFiles exContent (Except.ok []) none (fun _ => true) 0
    (initTracking freshDb) okUpSt).2.2 (by decide)

end Dbuddy
